import Mathlib

/-!
Shallow embedding of the RecursiveDescent expression parser
(src/ExpressionParser/src/lexer.h, lexer.cpp, rd_parser.h, rd_parser.cpp,
errors.h) together with proofs about its behaviour.

The C++ program is a two-stage pipeline: a regex-based tokenizer that turns a
source string into a list of typed tokens, and a recursive-descent parser that
builds and evaluates an AST over machine ints.  Exceptions are modelled by an
explicit error sum type, the token vector by a list, the parser cursor by a
natural number (the C++ int cursor starts at 0 and is only ever incremented),
and int values by unbounded integers, with the std::stoi range check on
literal digit runs made explicit.  The C++ recursion is embedded with an
explicit fuel parameter; exhausted fuel is the Option layer's none, and a
theorem below shows fuel 3 * length + 4 always suffices, which is the fuel
the top-level Parse uses.
-/

deriving instance DecidableEq for Except

namespace RD

/-- Token operation tags, from enum class Lexer::TokenOperation
(src/ExpressionParser/src/lexer.h). -/
inductive TokenOperation where
  | None
  | Literal
  | L_Brace
  | R_Brace
  | Subtraction
  | Addition
  | Multiplication
  | Division
deriving DecidableEq

/-- Token record, from struct Lexer::Token (src/ExpressionParser/src/lexer.h):
an operation tag, an int value (TOKEN_VALUE_NOT_APPLICABLE = -1 for
non-literals), and the raw source substring kept for diagnostics. -/
structure Token where
  operation : TokenOperation
  value : Int
  raw : String
deriving DecidableEq

/-- Error taxonomy of the program, from the exception classes in
src/ExpressionParser/src/errors.h, plus StoiFailure, which models the
standard-library exception (std::out_of_range or std::invalid_argument)
escaping the std::stoi call in Lexer::Tokenise: that failure is not one of
the error kinds the program itself declares. -/
inductive ParseError where
  | InvalidToken (tokens : List String)
  | EmptyExpression
  | TokenIndexOutOfRange
  | ParenthesesMismatch
  | UnexpectedParentheses
  | DivideByZero
  | UnexpectedToken (raw : String)
  | UnknownOperator
  | StoiFailure
deriving DecidableEq

/-- Distinguishes the error kinds enumerated by the program's own taxonomy
(the eight exception classes of src/ExpressionParser/src/errors.h) from the
unclassified std::stoi failure. -/
def enumeratedError : ParseError → Bool
  | .InvalidToken _ => true
  | .EmptyExpression => true
  | .TokenIndexOutOfRange => true
  | .ParenthesesMismatch => true
  | .UnexpectedParentheses => true
  | .DivideByZero => true
  | .UnexpectedToken _ => true
  | .UnknownOperator => true
  | .StoiFailure => false

/-- AST node kinds, from the Expression class hierarchy of
src/ExpressionParser/src/rd_parser.h: Literal(value), Unary(right),
Binary(operation, left, right). -/
inductive Expression where
  | Literal (value : Int)
  | Unary (right : Expression)
  | Binary (operation : TokenOperation) (left : Expression) (right : Expression)
deriving DecidableEq

/-- Character class of REGEX_INVALID_TOKEN_PATTERN
(src/ExpressionParser/src/lexer.h line 12): the pattern is the single-character
complement class of 0-9, plus, minus, space, star, slash and the two
parentheses.  Note the class does not contain a tab character. -/
def allowedChar (ch : Char) : Bool :=
  ch.isDigit || ch == '+' || ch == '-' || ch == ' ' || ch == '*' || ch == '/'
    || ch == '(' || ch == ')'

/-- Modelled from the spec: the allowed character set the specification text
states for the tokenizer, digits, the four operators, parentheses, space and
tab.  This is the spec's wording, kept separate from allowedChar, which is
the class the source regex actually uses (no tab). -/
def specAllowedChar (ch : Char) : Bool :=
  ch.isDigit || ch == '+' || ch == '-' || ch == ' ' || ch == '\t' || ch == '*'
    || ch == '/' || ch == '(' || ch == ')'

/-- Matches of REGEX_INVALID_TOKEN_PATTERN over the input, in left-to-right
order, as collected by Lexer::regexFindSubstrings
(src/ExpressionParser/src/lexer.cpp lines 111-125).  The pattern is a bare
one-character negated class with no quantifier, so each match is a single
disallowed character, and std::sregex_iterator yields one match per
disallowed character in order. -/
def invalidSubstrings (expr : String) : List String :=
  (expr.data.filter (fun ch => !(allowedChar ch))).map Char.toString

/-- Single-character alternatives of REGEX_TOKEN_PATTERN
(src/ExpressionParser/src/lexer.h line 11), the class of operator and
parenthesis characters. -/
def isOpChar (ch : Char) : Bool :=
  ch == '-' || ch == '+' || ch == '*' || ch == '/' || ch == '(' || ch == ')'

/-- Scanner for REGEX_TOKEN_PATTERN, the alternation of a greedy digit run
and a single operator or parenthesis character, iterated left to right by
std::sregex_iterator in Lexer::regexFindSubstrings: a maximal digit run is
one match, an operator character is one match, any other character (only
whitespace survives the invalid-character pass) starts no match and is
skipped.  The run argument accumulates the digit run in progress, reversed. -/
def scanAux : List Char → List Char → List String
  | [], run => if run.isEmpty then [] else [String.mk run.reverse]
  | ch :: rest, run =>
    if ch.isDigit then
      scanAux rest (ch :: run)
    else
      (if run.isEmpty then [] else [String.mk run.reverse])
        ++ (if isOpChar ch then String.mk [ch] :: scanAux rest [] else scanAux rest [])

/-- Valid token substrings of the input, in left-to-right order
(the regexFindSubstrings(REGEX_TOKEN_PATTERN) call of Lexer::Tokenise,
src/ExpressionParser/src/lexer.cpp line 31). -/
def scanTokens (l : List Char) : List String :=
  scanAux l []

/-- Numeric value of a digit string, most significant digit first. -/
def digitsVal (s : String) : Nat :=
  s.data.foldl (fun a ch => 10 * a + (ch.toNat - 48)) 0

/-- Model of the std::stoi call of Lexer::Tokenise
(src/ExpressionParser/src/lexer.cpp line 55) on the substrings the token
regex produces: a nonempty all-digit run within int range (INT_MAX =
2147483647) parses to its value; anything else, in particular a digit run
exceeding INT_MAX, makes std::stoi throw a standard-library exception that
the program does not classify, modelled as StoiFailure. -/
def stoi (s : String) : Except ParseError Int :=
  if s.data ≠ [] ∧ s.data.all Char.isDigit = true ∧ digitsVal s ≤ 2147483647 then
    .ok (digitsVal s)
  else
    .error .StoiFailure

/-- Classification switch of Lexer::Tokenise
(src/ExpressionParser/src/lexer.cpp lines 38-60): dispatch on the first
character of the raw substring; parentheses and operators map to their tags
with value TOKEN_VALUE_NOT_APPLICABLE = -1, anything else is parsed by
std::stoi as a literal. -/
def classifyToken (raw : String) : Except ParseError Token :=
  match raw.data with
  | '(' :: _ => .ok { operation := .L_Brace, value := -1, raw := raw }
  | ')' :: _ => .ok { operation := .R_Brace, value := -1, raw := raw }
  | '-' :: _ => .ok { operation := .Subtraction, value := -1, raw := raw }
  | '+' :: _ => .ok { operation := .Addition, value := -1, raw := raw }
  | '*' :: _ => .ok { operation := .Multiplication, value := -1, raw := raw }
  | '/' :: _ => .ok { operation := .Division, value := -1, raw := raw }
  | _ =>
    match stoi raw with
    | .error e => .error e
    | .ok v => .ok { operation := .Literal, value := v, raw := raw }

/-- Classification loop of Lexer::Tokenise over all extracted substrings,
pushing one token per substring; a failing std::stoi aborts the loop. -/
def classifyAll : List String → Except ParseError (List Token)
  | [] => .ok []
  | raw :: rest =>
    match classifyToken raw with
    | .error e => .error e
    | .ok t =>
      match classifyAll rest with
      | .error e => .error e
      | .ok ts => .ok (t :: ts)

/-- Embeds Lexer::Tokenise (src/ExpressionParser/src/lexer.cpp lines 19-61):
first collect matches of the invalid-character pattern and fail with
InvalidToken if any exist; then extract the valid token substrings and fail
with EmptyExpression if there are none; finally classify each substring. -/
def Tokenise (expr : String) : Except ParseError (List Token) :=
  let invalid := invalidSubstrings expr
  if invalid.isEmpty then
    let valid := scanTokens expr.data
    if valid.isEmpty then .error .EmptyExpression
    else classifyAll valid
  else
    .error (.InvalidToken invalid)

/-- Placeholder token used as the List.getD default in the embedding of the
token vector access; it is never returned, since getToken checks the bounds
first. -/
def defaultToken : Token :=
  { operation := .None, value := -1, raw := "" }

/-- Embeds Lexer::getToken (src/ExpressionParser/src/lexer.cpp lines 71-80):
an index outside the interval from 0 inclusive to the token count exclusive
fails with TokenIndexOutOfRange, otherwise the stored token is returned. -/
def getToken (ts : List Token) (i : Int) : Except ParseError Token :=
  if i < 0 ∨ (ts.length : Int) ≤ i then .error .TokenIndexOutOfRange
  else .ok (ts.getD i.toNat defaultToken)

/-- Condition of RDParser::tokenMatchAndAdvance
(src/ExpressionParser/src/rd_parser.cpp lines 52-61): the cursor is in range
and the token there carries the wanted operation.  The C++ helper also
advances the cursor on success; the parser functions below advance to c + 1
at each use site where this condition holds. -/
def tokenMatchCond (ts : List Token) (c : Nat) (op : TokenOperation) : Bool :=
  decide (c < ts.length) &&
    (match getToken ts (c : Int) with
     | .ok t => decide (t.operation = op)
     | .error _ => false)

mutual

/-- Embeds RDParser::parsePrimary (src/ExpressionParser/src/rd_parser.cpp
lines 126-164).  A Literal token becomes a Literal node (the getToken call
at cursor minus 1 after the advance, here index c, is kept explicit); an
opening brace parses a nested expression and requires a closing brace, else
ParenthesesMismatch; otherwise the error branch reports UnexpectedToken for
the token at the cursor clamped to the last valid index. -/
def parsePrimary : Nat → List Token → Nat → Option (Except ParseError (Expression × Nat))
  | 0, _, _ => none
  | fuel + 1, ts, c =>
    if tokenMatchCond ts c .Literal then
      match getToken ts (c : Int) with
      | .error e => some (.error e)
      | .ok tok => some (.ok (.Literal tok.value, c + 1))
    else if tokenMatchCond ts c .L_Brace then
      match parseBinary fuel ts (c + 1) with
      | none => none
      | some (.error e) => some (.error e)
      | some (.ok (ast, c2)) =>
        if tokenMatchCond ts c2 .R_Brace then some (.ok (ast, c2 + 1))
        else some (.error .ParenthesesMismatch)
    else
      let maxIdx : Int := (ts.length : Int) - 1
      let badIdx : Int := if (c : Int) > maxIdx then maxIdx else (c : Int)
      match getToken ts badIdx with
      | .error e => some (.error e)
      | .ok tok => some (.error (.UnexpectedToken tok.raw))
  termination_by structural fuel => fuel

/-- Embeds RDParser::parseUnary (src/ExpressionParser/src/rd_parser.cpp
lines 108-116): a Subtraction token wraps a recursively parsed unary in a
Unary node, otherwise delegate to parsePrimary. -/
def parseUnary : Nat → List Token → Nat → Option (Except ParseError (Expression × Nat))
  | 0, _, _ => none
  | fuel + 1, ts, c =>
    if tokenMatchCond ts c .Subtraction then
      match parseUnary fuel ts (c + 1) with
      | none => none
      | some (.error e) => some (.error e)
      | some (.ok (ast, c2)) => some (.ok (.Unary ast, c2))
    else parsePrimary fuel ts c
  termination_by structural fuel => fuel

/-- Embeds the while loop of RDParser::parseBinary
(src/ExpressionParser/src/rd_parser.cpp lines 88-95): while the cursor
matches one of the four operator tokens, consume it, read it back with
getToken at cursor minus 1 (index c here), parse another unary, and fold
into a left-associative Binary node. -/
def parseBinaryLoop : Nat → List Token → Expression → Nat → Option (Except ParseError (Expression × Nat))
  | 0, _, _, _ => none
  | fuel + 1, ts, left, c =>
    if tokenMatchCond ts c .Addition || tokenMatchCond ts c .Subtraction
        || tokenMatchCond ts c .Multiplication || tokenMatchCond ts c .Division then
      match getToken ts (c : Int) with
      | .error e => some (.error e)
      | .ok prev =>
        match parseUnary fuel ts (c + 1) with
        | none => none
        | some (.error e) => some (.error e)
        | some (.ok (right, c2)) =>
          parseBinaryLoop fuel ts (.Binary prev.operation left right) c2
    else some (.ok (left, c))
  termination_by structural fuel => fuel

/-- Embeds RDParser::parseBinary (src/ExpressionParser/src/rd_parser.cpp
lines 84-98): parse one unary, then run the operator loop on it. -/
def parseBinary : Nat → List Token → Nat → Option (Except ParseError (Expression × Nat))
  | 0, _, _ => none
  | fuel + 1, ts, c =>
    match parseUnary fuel ts c with
    | none => none
    | some (.error e) => some (.error e)
    | some (.ok (left, c2)) => parseBinaryLoop fuel ts left c2
  termination_by structural fuel => fuel

end

/-- Embeds RDParser::parseExpression (src/ExpressionParser/src/rd_parser.cpp
lines 71-74), which delegates to parseBinary. -/
def parseExpression (fuel : Nat) (ts : List Token) (c : Nat) :
    Option (Except ParseError (Expression × Nat)) :=
  parseBinary fuel ts c

/-- Embeds the Evaluate methods of the AST nodes
(src/ExpressionParser/src/rd_parser.cpp lines 187-249).  A Literal yields its
value; a Unary negates its operand; a Binary applies its operator, where
Division evaluates the right operand first, fails with DivideByZero if it is
zero, and only then evaluates the left operand and divides with C++ integer
division (truncation toward zero, Int.tdiv); an operation tag outside the
four operators fails with UnknownOperator.  For Addition, Subtraction and
Multiplication the operands are written left to right (the C++ source leaves
the evaluation order of the two operand expressions unspecified). -/
def Evaluate : Expression → Except ParseError Int
  | .Literal v => .ok v
  | .Unary r =>
    match Evaluate r with
    | .error e => .error e
    | .ok v => .ok (-v)
  | .Binary op l r =>
    match op with
    | .Addition =>
      match Evaluate l with
      | .error e => .error e
      | .ok a =>
        match Evaluate r with
        | .error e => .error e
        | .ok b => .ok (a + b)
    | .Subtraction =>
      match Evaluate l with
      | .error e => .error e
      | .ok a =>
        match Evaluate r with
        | .error e => .error e
        | .ok b => .ok (a - b)
    | .Multiplication =>
      match Evaluate l with
      | .error e => .error e
      | .ok a =>
        match Evaluate r with
        | .error e => .error e
        | .ok b => .ok (a * b)
    | .Division =>
      match Evaluate r with
      | .error e => .error e
      | .ok b =>
        if b = 0 then .error .DivideByZero
        else
          match Evaluate l with
          | .error e => .error e
          | .ok a => .ok (Int.tdiv a b)
    | _ => .error .UnknownOperator

/-- Embeds RDParser::Parse (src/ExpressionParser/src/rd_parser.cpp lines
21-41): reset the cursor to 0, tokenise, run the recursive descent, fail
with UnexpectedParentheses if tokens are left over, else evaluate the AST.
The fuel 3 * length + 4 is shown sufficient below, so the none case of the
Option layer, which stands for exhausted recursion fuel, never occurs. -/
def Parse (expr : String) : Option (Except ParseError Int) :=
  match Tokenise expr with
  | .error e => some (.error e)
  | .ok ts =>
    match parseExpression (3 * ts.length + 4) ts 0 with
    | none => none
    | some (.error e) => some (.error e)
    | some (.ok (ast, c)) =>
      if c < ts.length then some (.error .UnexpectedParentheses)
      else some (Evaluate ast)

/-- Token list the tokenizer produces for the input of the sixth claim's
second example, written out for the counterexample below. -/
def c6Tokens : List Token :=
  [ { operation := .Literal, value := 5, raw := "5" },
    { operation := .L_Brace, value := -1, raw := "(" },
    { operation := .Addition, value := -1, raw := "+" },
    { operation := .Literal, value := 6, raw := "6" },
    { operation := .Multiplication, value := -1, raw := "*" },
    { operation := .Addition, value := -1, raw := "+" },
    { operation := .Literal, value := 4, raw := "4" } ]

/-- Helper lemmas about the embedded functions. -/
theorem tokenMatchCond_lt {ts : List Token} {c : Nat} {op : TokenOperation}
    (h : tokenMatchCond ts c op = true) : c < ts.length := by
  unfold tokenMatchCond at h
  rcases (Bool.and_eq_true _ _).mp h with ⟨h1, _⟩
  exact of_decide_eq_true h1

/-- A getToken access at an in-range index succeeds and returns the stored
token. -/
theorem getToken_ok {ts : List Token} {i : Int} (h0 : 0 ≤ i) (h1 : i < (ts.length : Int)) :
    getToken ts i = .ok (ts.getD i.toNat defaultToken) := by
  unfold getToken
  rw [if_neg (by omega)]

/-- Specialisation of getToken_ok to a natural-number cursor. -/
theorem getToken_nat {ts : List Token} {c : Nat} (h : c < ts.length) :
    getToken ts (c : Int) = .ok (ts.getD c defaultToken) := by
  have := @getToken_ok ts (c : Int) (by omega) (by omega)
  simpa using this

/-- Evaluation can only fail with DivideByZero or UnknownOperator: those are
the only exceptions the Evaluate methods throw. -/
theorem evaluate_error_cases (ast : Expression) :
    ∀ e, Evaluate ast = .error e → e = .DivideByZero ∨ e = .UnknownOperator := by
  induction ast with
  | Literal v => intro e h; simp [Evaluate] at h
  | Unary r ih =>
    intro e h
    simp only [Evaluate] at h
    cases hr : Evaluate r with
    | error e2 =>
      simp only [hr] at h
      injection h with h2
      exact h2 ▸ ih _ hr
    | ok v => simp [hr] at h
  | Binary op l r ihl ihr =>
    intro e h
    cases op <;> simp only [Evaluate] at h
    case Addition | Subtraction | Multiplication =>
      cases hl : Evaluate l with
      | error e1 =>
        simp only [hl] at h
        injection h with h2
        exact h2 ▸ ihl _ hl
      | ok a =>
        simp only [hl] at h
        cases hr : Evaluate r with
        | error e2 =>
          simp only [hr] at h
          injection h with h2
          exact h2 ▸ ihr _ hr
        | ok b => simp [hr] at h
    case Division =>
      cases hr : Evaluate r with
      | error e2 =>
        simp only [hr] at h
        injection h with h2
        exact h2 ▸ ihr _ hr
      | ok b =>
        simp only [hr] at h
        by_cases hb : b = 0
        · rw [if_pos hb] at h
          injection h with h2
          exact Or.inl h2.symm
        · rw [if_neg hb] at h
          cases hl : Evaluate l with
          | error e1 =>
            simp only [hl] at h
            injection h with h2
            exact h2 ▸ ihl _ hl
          | ok a => simp [hl] at h
    case None =>
      injection h with h2
      exact Or.inr h2.symm
    case Literal =>
      injection h with h2
      exact Or.inr h2.symm
    case L_Brace =>
      injection h with h2
      exact Or.inr h2.symm
    case R_Brace =>
      injection h with h2
      exact Or.inr h2.symm

/-- The classification switch can only fail through std::stoi. -/
theorem classifyToken_error {raw : String} {e : ParseError}
    (h : classifyToken raw = .error e) : e = .StoiFailure := by
  unfold classifyToken at h
  split at h
  any_goals cases h
  split at h
  · rename_i heq
    unfold stoi at heq
    split at heq
    · cases heq
    · injection heq with h2
      injection h with h3
      rw [← h3, ← h2]
  · cases h

/-- The classification loop can only fail through std::stoi. -/
theorem classifyAll_error : ∀ (l : List String) (e : ParseError),
    classifyAll l = .error e → e = .StoiFailure := by
  intro l
  induction l with
  | nil => intro e h; simp [classifyAll] at h
  | cons raw rest ih =>
    intro e h
    unfold classifyAll at h
    cases htok : classifyToken raw with
    | error e1 =>
      simp only [htok] at h
      injection h with h2
      exact h2 ▸ classifyToken_error htok
    | ok tok =>
      simp only [htok] at h
      cases hrest : classifyAll rest with
      | error e1 =>
        simp only [hrest] at h
        injection h with h2
        exact h2 ▸ ih _ hrest
      | ok ts2 => simp [hrest] at h

/-- A classified token keeps the raw substring it was built from. -/
theorem classifyToken_raw {raw : String} {tok : Token}
    (h : classifyToken raw = .ok tok) : tok.raw = raw := by
  unfold classifyToken at h
  split at h
  any_goals (injection h with h2; subst h2; rfl)
  split at h
  · cases h
  · injection h with h2; subst h2; rfl

/-- The classification loop emits one token per raw substring. -/
theorem classifyAll_length : ∀ (l : List String) (ts : List Token),
    classifyAll l = .ok ts → ts.length = l.length := by
  intro l
  induction l with
  | nil =>
    intro ts h
    unfold classifyAll at h
    injection h with h2
    subst h2
    rfl
  | cons raw rest ih =>
    intro ts h
    unfold classifyAll at h
    cases htok : classifyToken raw with
    | error e => simp [htok] at h
    | ok tok =>
      simp only [htok] at h
      cases hrest : classifyAll rest with
      | error e => simp [hrest] at h
      | ok ts2 =>
        simp only [hrest] at h
        injection h with h2
        subst h2
        simp [ih _ hrest]

/-- Every classified token keeps a raw substring from the input list. -/
theorem classifyAll_raws : ∀ (l : List String) (ts : List Token),
    classifyAll l = .ok ts → ∀ t ∈ ts, t.raw ∈ l := by
  intro l
  induction l with
  | nil =>
    intro ts h
    unfold classifyAll at h
    injection h with h2
    subst h2
    intro t ht
    cases ht
  | cons raw rest ih =>
    intro ts h t ht
    unfold classifyAll at h
    cases htok : classifyToken raw with
    | error e => simp [htok] at h
    | ok tok =>
      simp only [htok] at h
      cases hrest : classifyAll rest with
      | error e => simp [hrest] at h
      | ok ts2 =>
        simp only [hrest] at h
        injection h with h2
        subst h2
        rcases List.mem_cons.mp ht with rfl | hmem
        · rw [classifyToken_raw htok]
          exact List.mem_cons_self _ _
        · exact List.mem_cons_of_mem _ (ih _ hrest t hmem)

/-- Every substring the token scanner extracts is either a nonempty digit
run or a single operator or parenthesis character. -/
theorem scanAux_shape :
    ∀ (l run : List Char), run.all Char.isDigit = true →
      ∀ t ∈ scanAux l run,
        (t.data ≠ [] ∧ t.data.all Char.isDigit = true)
          ∨ ∃ ch, isOpChar ch = true ∧ t.data = [ch] := by
  intro l
  induction l with
  | nil =>
    intro run hrun t ht
    unfold scanAux at ht
    by_cases hre : run.isEmpty
    · rw [if_pos hre] at ht
      cases ht
    · rw [if_neg hre] at ht
      rcases List.mem_singleton.mp ht with rfl
      left
      refine ⟨?_, ?_⟩
      · simp only [List.isEmpty_iff] at hre
        simpa using hre
      · simpa using hrun
  | cons ch rest ih =>
    intro run hrun t ht
    unfold scanAux at ht
    by_cases hd : ch.isDigit
    · rw [if_pos hd] at ht
      exact ih (ch :: run) (by simp [hd, hrun]) t ht
    · rw [if_neg hd] at ht
      rcases List.mem_append.mp ht with hflush | hrest2
      · by_cases hre : run.isEmpty
        · rw [if_pos hre] at hflush
          cases hflush
        · rw [if_neg hre] at hflush
          rcases List.mem_singleton.mp hflush with rfl
          left
          refine ⟨?_, ?_⟩
          · simp only [List.isEmpty_iff] at hre
            simpa using hre
          · simpa using hrun
      · by_cases hop : isOpChar ch
        · rw [if_pos hop] at hrest2
          rcases List.mem_cons.mp hrest2 with rfl | hmem
          · exact Or.inr ⟨ch, hop, rfl⟩
          · exact ih [] rfl t hmem
        · rw [if_neg hop] at hrest2
          exact ih [] rfl t hrest2

/-- Classification succeeds on a nonempty digit run within int range. -/
theorem classifyToken_digit {raw : String} (hne : raw.data ≠ [])
    (hall : raw.data.all Char.isDigit = true) (hle : digitsVal raw ≤ 2147483647) :
    classifyToken raw = .ok { operation := .Literal, value := (digitsVal raw : Int), raw := raw } := by
  have hstoi : stoi raw = .ok (digitsVal raw) := by
    unfold stoi
    rw [if_pos ⟨hne, hall, hle⟩]
  unfold classifyToken
  split
  all_goals first
    | (rename_i heq
       exfalso
       rw [heq] at hall
       simp at hall)
    | (rw [hstoi])

/-- Classification succeeds on any substring the scanner can produce whose
digit value is within int range. -/
theorem classifyToken_shape_ok {raw : String}
    (hshape : (raw.data ≠ [] ∧ raw.data.all Char.isDigit = true)
      ∨ ∃ ch, isOpChar ch = true ∧ raw.data = [ch])
    (hle : digitsVal raw ≤ 2147483647) :
    ∃ tok, classifyToken raw = .ok tok := by
  rcases hshape with ⟨hne, hall⟩ | ⟨ch, hop, hdata⟩
  · exact ⟨_, classifyToken_digit hne hall hle⟩
  · obtain ⟨l⟩ := raw
    simp only at hdata
    subst hdata
    simp only [isOpChar, Bool.or_eq_true, beq_iff_eq] at hop
    rcases hop with ((((h | h) | h) | h) | h) | h
    all_goals subst h
    all_goals exact ⟨_, rfl⟩

/-- The classification loop succeeds when every element classifies. -/
theorem classifyAll_ok_exists : ∀ (l : List String),
    (∀ raw ∈ l, ∃ tok, classifyToken raw = .ok tok) →
    ∃ ts, classifyAll l = .ok ts := by
  intro l
  induction l with
  | nil => intro _; exact ⟨[], rfl⟩
  | cons raw rest ih =>
    intro hall
    obtain ⟨tok, htok⟩ := hall raw (List.mem_cons_self _ _)
    obtain ⟨ts2, hts2⟩ := ih (fun r hr => hall r (List.mem_cons_of_mem _ hr))
    refine ⟨tok :: ts2, ?_⟩
    unfold classifyAll
    rw [htok, hts2]

/-- A successful tokenisation never yields an empty token list: the empty
case fails with EmptyExpression first. -/
theorem Tokenise_ok_ne_nil {expr : String} {ts : List Token}
    (h : Tokenise expr = .ok ts) : ts ≠ [] := by
  unfold Tokenise at h
  by_cases hinv : (invalidSubstrings expr).isEmpty
  · rw [if_pos hinv] at h
    by_cases hval : (scanTokens expr.data).isEmpty
    · rw [if_pos hval] at h
      cases h
    · rw [if_neg hval] at h
      have hlen := classifyAll_length _ _ h
      intro hnil
      rw [hnil] at hlen
      simp only [List.isEmpty_iff] at hval
      exact hval (List.length_eq_zero.mp hlen.symm)
  · rw [if_neg hinv] at h
    cases h

/-- Tokenisation can only fail with InvalidToken, EmptyExpression, or the
unclassified std::stoi failure. -/
theorem Tokenise_error_cases {expr : String} {e : ParseError}
    (h : Tokenise expr = .error e) :
    (∃ l, e = .InvalidToken l) ∨ e = .EmptyExpression ∨ e = .StoiFailure := by
  unfold Tokenise at h
  by_cases hinv : (invalidSubstrings expr).isEmpty
  · rw [if_pos hinv] at h
    by_cases hval : (scanTokens expr.data).isEmpty
    · rw [if_pos hval] at h
      injection h with h2
      exact Or.inr (Or.inl h2.symm)
    · rw [if_neg hval] at h
      exact Or.inr (Or.inr (classifyAll_error _ _ h))
  · rw [if_neg hinv] at h
    injection h with h2
    exact Or.inl ⟨_, h2.symm⟩

/-- The operator loop of parseBinary can only return normally at a cursor
whose token matches none of the four operator kinds: that is its exit
condition. -/
theorem parseBinaryLoop_exit : ∀ (fuel : Nat) (ts : List Token) (left : Expression)
    (c : Nat) (ast : Expression) (c2 : Nat),
    parseBinaryLoop fuel ts left c = some (.ok (ast, c2)) →
    tokenMatchCond ts c2 .Addition = false ∧ tokenMatchCond ts c2 .Subtraction = false
      ∧ tokenMatchCond ts c2 .Multiplication = false ∧ tokenMatchCond ts c2 .Division = false := by
  intro fuel
  induction fuel with
  | zero =>
    intro ts left c ast c2 h
    simp [parseBinaryLoop] at h
  | succ fuel ih =>
    intro ts left c ast c2 h
    simp only [parseBinaryLoop] at h
    by_cases hcond : (tokenMatchCond ts c .Addition || tokenMatchCond ts c .Subtraction
        || tokenMatchCond ts c .Multiplication || tokenMatchCond ts c .Division) = true
    · rw [if_pos hcond] at h
      cases hg : getToken ts (c : Int) with
      | error e => simp [hg] at h
      | ok prev =>
        simp only [hg] at h
        cases hu : parseUnary fuel ts (c + 1) with
        | none => simp [hu] at h
        | some r =>
          cases r with
          | error e => simp [hu] at h
          | ok p =>
            obtain ⟨right, cr⟩ := p
            simp only [hu] at h
            exact ih ts _ cr ast c2 h
    · rw [if_neg hcond] at h
      injection h with h2
      injection h2 with h3
      injection h3 with h4 h5
      subst h5
      simp only [Bool.or_eq_true, not_or, Bool.not_eq_true] at hcond
      exact ⟨hcond.1.1.1, hcond.1.1.2, hcond.1.2, hcond.2⟩

/-- The body of parseBinary returns through the operator loop, so its final
cursor also satisfies the loop exit condition. -/
theorem parseBinary_exit {fuel : Nat} {ts : List Token} {c : Nat}
    {ast : Expression} {c2 : Nat}
    (h : parseBinary fuel ts c = some (.ok (ast, c2))) :
    tokenMatchCond ts c2 .Addition = false ∧ tokenMatchCond ts c2 .Subtraction = false
      ∧ tokenMatchCond ts c2 .Multiplication = false ∧ tokenMatchCond ts c2 .Division = false := by
  cases fuel with
  | zero => simp [parseBinary] at h
  | succ fuel =>
    simp only [parseBinary] at h
    cases hu : parseUnary fuel ts c with
    | none => simp [hu] at h
    | some r =>
      cases r with
      | error e => simp [hu] at h
      | ok p =>
        obtain ⟨left, cl⟩ := p
        simp only [hu] at h
        exact parseBinaryLoop_exit fuel ts left cl ast c2 h

/-- Master invariant of the recursive descent, by induction on the fuel.
For a nonempty token list and an in-range cursor, each parser function
(i) cannot exhaust its fuel once the fuel is at least three times the count
of remaining tokens plus a small constant, (ii) can only fail with
ParenthesesMismatch or UnexpectedToken, and (iii) on success returns a
cursor that has not moved backwards and is still in range. -/
theorem parserFuelInv : ∀ fuel : Nat,
    (∀ ts c, ts ≠ [] → c ≤ ts.length →
      (3 * (ts.length - c) + 2 ≤ fuel → parsePrimary fuel ts c ≠ none) ∧
      (∀ e, parsePrimary fuel ts c = some (.error e) →
        e = .ParenthesesMismatch ∨ ∃ s, e = .UnexpectedToken s) ∧
      (∀ ast c2, parsePrimary fuel ts c = some (.ok (ast, c2)) → c ≤ c2 ∧ c2 ≤ ts.length)) ∧
    (∀ ts c, ts ≠ [] → c ≤ ts.length →
      (3 * (ts.length - c) + 3 ≤ fuel → parseUnary fuel ts c ≠ none) ∧
      (∀ e, parseUnary fuel ts c = some (.error e) →
        e = .ParenthesesMismatch ∨ ∃ s, e = .UnexpectedToken s) ∧
      (∀ ast c2, parseUnary fuel ts c = some (.ok (ast, c2)) → c ≤ c2 ∧ c2 ≤ ts.length)) ∧
    (∀ ts left c, ts ≠ [] → c ≤ ts.length →
      (3 * (ts.length - c) + 2 ≤ fuel → parseBinaryLoop fuel ts left c ≠ none) ∧
      (∀ e, parseBinaryLoop fuel ts left c = some (.error e) →
        e = .ParenthesesMismatch ∨ ∃ s, e = .UnexpectedToken s) ∧
      (∀ ast c2, parseBinaryLoop fuel ts left c = some (.ok (ast, c2)) → c ≤ c2 ∧ c2 ≤ ts.length)) ∧
    (∀ ts c, ts ≠ [] → c ≤ ts.length →
      (3 * (ts.length - c) + 4 ≤ fuel → parseBinary fuel ts c ≠ none) ∧
      (∀ e, parseBinary fuel ts c = some (.error e) →
        e = .ParenthesesMismatch ∨ ∃ s, e = .UnexpectedToken s) ∧
      (∀ ast c2, parseBinary fuel ts c = some (.ok (ast, c2)) → c ≤ c2 ∧ c2 ≤ ts.length)) := by
  intro fuel
  induction fuel with
  | zero =>
    refine ⟨?_, ?_, ?_, ?_⟩
    · intro ts c hne hc
      exact ⟨by omega, by intro e h; simp [parsePrimary] at h,
        by intro ast c2 h; simp [parsePrimary] at h⟩
    · intro ts c hne hc
      exact ⟨by omega, by intro e h; simp [parseUnary] at h,
        by intro ast c2 h; simp [parseUnary] at h⟩
    · intro ts left c hne hc
      exact ⟨by omega, by intro e h; simp [parseBinaryLoop] at h,
        by intro ast c2 h; simp [parseBinaryLoop] at h⟩
    · intro ts c hne hc
      exact ⟨by omega, by intro e h; simp [parseBinary] at h,
        by intro ast c2 h; simp [parseBinary] at h⟩
  | succ fuel ih =>
    obtain ⟨ihP, ihU, ihL, ihB⟩ := ih
    refine ⟨?_, ?_, ?_, ?_⟩
    -- parsePrimary at fuel + 1
    · intro ts c hne hc
      by_cases hL : tokenMatchCond ts c .Literal = true
      · have hlt : c < ts.length := tokenMatchCond_lt hL
        have hres : parsePrimary (fuel + 1) ts c
            = some (.ok (.Literal (ts.getD c defaultToken).value, c + 1)) := by
          simp only [parsePrimary]
          rw [if_pos hL]
          simp only [getToken_nat hlt]
        refine ⟨?_, ?_, ?_⟩
        · intro _
          rw [hres]
          simp
        · intro e h
          rw [hres] at h
          simp at h
        · intro ast c2 h
          rw [hres] at h
          injection h with h2
          injection h2 with h3
          injection h3 with h4 h5
          omega
      · by_cases hB : tokenMatchCond ts c .L_Brace = true
        · have hlt : c < ts.length := tokenMatchCond_lt hB
          have hsub := ihB ts (c + 1) hne (by omega)
          cases hpb : parseBinary fuel ts (c + 1) with
          | none =>
            have hres : parsePrimary (fuel + 1) ts c = none := by
              simp only [parsePrimary]
              rw [if_neg hL, if_pos hB]
              simp only [hpb]
            refine ⟨?_, ?_, ?_⟩
            · intro hf
              exact absurd hpb (hsub.1 (by omega))
            · intro e h
              rw [hres] at h
              cases h
            · intro ast c2 h
              rw [hres] at h
              cases h
          | some r =>
            cases r with
            | error e0 =>
              have hres : parsePrimary (fuel + 1) ts c = some (.error e0) := by
                simp only [parsePrimary]
                rw [if_neg hL, if_pos hB]
                simp only [hpb]
              refine ⟨?_, ?_, ?_⟩
              · intro _
                rw [hres]
                simp
              · intro e h
                rw [hres] at h
                injection h with h2
                injection h2 with h3
                exact h3 ▸ hsub.2.1 e0 hpb
              · intro ast c2 h
                rw [hres] at h
                simp at h
            | ok p =>
              obtain ⟨ast0, c3⟩ := p
              have hc3 := hsub.2.2 ast0 c3 hpb
              by_cases hR : tokenMatchCond ts c3 .R_Brace = true
              · have hlt3 : c3 < ts.length := tokenMatchCond_lt hR
                have hres : parsePrimary (fuel + 1) ts c = some (.ok (ast0, c3 + 1)) := by
                  simp only [parsePrimary]
                  rw [if_neg hL, if_pos hB]
                  simp only [hpb]
                  rw [if_pos hR]
                refine ⟨?_, ?_, ?_⟩
                · intro _
                  rw [hres]
                  simp
                · intro e h
                  rw [hres] at h
                  simp at h
                · intro ast c2 h
                  rw [hres] at h
                  injection h with h2
                  injection h2 with h3
                  injection h3 with h4 h5
                  omega
              · have hres : parsePrimary (fuel + 1) ts c = some (.error .ParenthesesMismatch) := by
                  simp only [parsePrimary]
                  rw [if_neg hL, if_pos hB]
                  simp only [hpb]
                  rw [if_neg hR]
                refine ⟨?_, ?_, ?_⟩
                · intro _
                  rw [hres]
                  simp
                · intro e h
                  rw [hres] at h
                  injection h with h2
                  injection h2 with h3
                  exact Or.inl h3.symm
                · intro ast c2 h
                  rw [hres] at h
                  simp at h
        · have hlen1 : 1 ≤ ts.length := by
            cases ts with
            | nil => exact absurd rfl hne
            | cons t ts2 => simp
          by_cases hclamp : (c : Int) > (ts.length : Int) - 1
          · have hres : parsePrimary (fuel + 1) ts c
                = some (.error (.UnexpectedToken
                    (ts.getD ((ts.length : Int) - 1).toNat defaultToken).raw)) := by
              simp only [parsePrimary]
              rw [if_neg hL, if_neg hB, if_pos hclamp,
                getToken_ok (by omega) (by omega)]
            refine ⟨?_, ?_, ?_⟩
            · intro _
              rw [hres]
              simp
            · intro e h
              rw [hres] at h
              injection h with h2
              injection h2 with h3
              exact Or.inr ⟨_, h3.symm⟩
            · intro ast c2 h
              rw [hres] at h
              simp at h
          · have hres : parsePrimary (fuel + 1) ts c
                = some (.error (.UnexpectedToken
                    (ts.getD ((c : Int)).toNat defaultToken).raw)) := by
              simp only [parsePrimary]
              rw [if_neg hL, if_neg hB, if_neg hclamp,
                getToken_ok (by omega) (by omega)]
            refine ⟨?_, ?_, ?_⟩
            · intro _
              rw [hres]
              simp
            · intro e h
              rw [hres] at h
              injection h with h2
              injection h2 with h3
              exact Or.inr ⟨_, h3.symm⟩
            · intro ast c2 h
              rw [hres] at h
              simp at h
    -- parseUnary at fuel + 1
    · intro ts c hne hc
      by_cases hS : tokenMatchCond ts c .Subtraction = true
      · have hlt : c < ts.length := tokenMatchCond_lt hS
        have hsub := ihU ts (c + 1) hne (by omega)
        cases hpu : parseUnary fuel ts (c + 1) with
        | none =>
          have hres : parseUnary (fuel + 1) ts c = none := by
            simp only [parseUnary]
            rw [if_pos hS]
            simp only [hpu]
          refine ⟨?_, ?_, ?_⟩
          · intro hf
            exact absurd hpu (hsub.1 (by omega))
          · intro e h
            rw [hres] at h
            cases h
          · intro ast c2 h
            rw [hres] at h
            cases h
        | some r =>
          cases r with
          | error e0 =>
            have hres : parseUnary (fuel + 1) ts c = some (.error e0) := by
              simp only [parseUnary]
              rw [if_pos hS]
              simp only [hpu]
            refine ⟨?_, ?_, ?_⟩
            · intro _
              rw [hres]
              simp
            · intro e h
              rw [hres] at h
              injection h with h2
              injection h2 with h3
              exact h3 ▸ hsub.2.1 e0 hpu
            · intro ast c2 h
              rw [hres] at h
              simp at h
          | ok p =>
            obtain ⟨ast0, c3⟩ := p
            have hc3 := hsub.2.2 ast0 c3 hpu
            have hres : parseUnary (fuel + 1) ts c = some (.ok (.Unary ast0, c3)) := by
              simp only [parseUnary]
              rw [if_pos hS]
              simp only [hpu]
            refine ⟨?_, ?_, ?_⟩
            · intro _
              rw [hres]
              simp
            · intro e h
              rw [hres] at h
              simp at h
            · intro ast c2 h
              rw [hres] at h
              injection h with h2
              injection h2 with h3
              injection h3 with h4 h5
              omega
      · have hsub := ihP ts c hne hc
        have hres : parseUnary (fuel + 1) ts c = parsePrimary fuel ts c := by
          simp only [parseUnary]
          rw [if_neg hS]
        refine ⟨?_, ?_, ?_⟩
        · intro hf
          rw [hres]
          exact hsub.1 (by omega)
        · intro e h
          rw [hres] at h
          exact hsub.2.1 e h
        · intro ast c2 h
          rw [hres] at h
          exact hsub.2.2 ast c2 h
    -- parseBinaryLoop at fuel + 1
    · intro ts left c hne hc
      by_cases hcond : (tokenMatchCond ts c .Addition || tokenMatchCond ts c .Subtraction
          || tokenMatchCond ts c .Multiplication || tokenMatchCond ts c .Division) = true
      · have hlt : c < ts.length := by
          simp only [Bool.or_eq_true] at hcond
          rcases hcond with ((h | h) | h) | h <;> exact tokenMatchCond_lt h
        have hg := getToken_nat hlt
        have hsubU := ihU ts (c + 1) hne (by omega)
        cases hpu : parseUnary fuel ts (c + 1) with
        | none =>
          have hres : parseBinaryLoop (fuel + 1) ts left c = none := by
            simp only [parseBinaryLoop]
            rw [if_pos hcond]
            simp only [hg, hpu]
          refine ⟨?_, ?_, ?_⟩
          · intro hf
            exact absurd hpu (hsubU.1 (by omega))
          · intro e h
            rw [hres] at h
            cases h
          · intro ast c2 h
            rw [hres] at h
            cases h
        | some r =>
          cases r with
          | error e0 =>
            have hres : parseBinaryLoop (fuel + 1) ts left c = some (.error e0) := by
              simp only [parseBinaryLoop]
              rw [if_pos hcond]
              simp only [hg, hpu]
            refine ⟨?_, ?_, ?_⟩
            · intro _
              rw [hres]
              simp
            · intro e h
              rw [hres] at h
              injection h with h2
              injection h2 with h3
              exact h3 ▸ hsubU.2.1 e0 hpu
            · intro ast c2 h
              rw [hres] at h
              simp at h
          | ok p =>
            obtain ⟨right0, c3⟩ := p
            have hc3 := hsubU.2.2 right0 c3 hpu
            have hsubL := ihL ts (.Binary (ts.getD c defaultToken).operation left right0) c3
              hne (by omega)
            have hres : parseBinaryLoop (fuel + 1) ts left c
                = parseBinaryLoop fuel ts
                    (.Binary (ts.getD c defaultToken).operation left right0) c3 := by
              simp only [parseBinaryLoop]
              rw [if_pos hcond]
              simp only [hg, hpu]
            refine ⟨?_, ?_, ?_⟩
            · intro hf
              rw [hres]
              exact hsubL.1 (by omega)
            · intro e h
              rw [hres] at h
              exact hsubL.2.1 e h
            · intro ast c2 h
              rw [hres] at h
              have := hsubL.2.2 ast c2 h
              omega
      · have hres : parseBinaryLoop (fuel + 1) ts left c = some (.ok (left, c)) := by
          simp only [parseBinaryLoop]
          rw [if_neg hcond]
        refine ⟨?_, ?_, ?_⟩
        · intro _
          rw [hres]
          simp
        · intro e h
          rw [hres] at h
          simp at h
        · intro ast c2 h
          rw [hres] at h
          injection h with h2
          injection h2 with h3
          injection h3 with h4 h5
          omega
    -- parseBinary at fuel + 1
    · intro ts c hne hc
      have hsubU := ihU ts c hne hc
      cases hpu : parseUnary fuel ts c with
      | none =>
        have hres : parseBinary (fuel + 1) ts c = none := by
          simp only [parseBinary]
          simp only [hpu]
        refine ⟨?_, ?_, ?_⟩
        · intro hf
          exact absurd hpu (hsubU.1 (by omega))
        · intro e h
          rw [hres] at h
          cases h
        · intro ast c2 h
          rw [hres] at h
          cases h
      | some r =>
        cases r with
        | error e0 =>
          have hres : parseBinary (fuel + 1) ts c = some (.error e0) := by
            simp only [parseBinary]
            simp only [hpu]
          refine ⟨?_, ?_, ?_⟩
          · intro _
            rw [hres]
            simp
          · intro e h
            rw [hres] at h
            injection h with h2
            injection h2 with h3
            exact h3 ▸ hsubU.2.1 e0 hpu
          · intro ast c2 h
            rw [hres] at h
            simp at h
        | ok p =>
          obtain ⟨left0, c3⟩ := p
          have hc3 := hsubU.2.2 left0 c3 hpu
          have hsubL := ihL ts left0 c3 hne (by omega)
          have hres : parseBinary (fuel + 1) ts c = parseBinaryLoop fuel ts left0 c3 := by
            simp only [parseBinary]
            simp only [hpu]
          refine ⟨?_, ?_, ?_⟩
          · intro hf
            rw [hres]
            exact hsubL.1 (by omega)
          · intro e h
            rw [hres] at h
            exact hsubL.2.1 e h
          · intro ast c2 h
            rw [hres] at h
            have := hsubL.2.2 ast c2 h
            omega

/-- A successful optional indexing determines the List.getD value. -/
theorem getD_of_getElem {ts : List Token} {c : Nat} {tok : Token}
    (h : ts[c]? = some tok) : ts.getD c defaultToken = tok := by
  rw [List.getD_eq_getElem?_getD, h]
  rfl

/-- A failing token match at an in-range cursor means the token there does
not carry the candidate operation. -/
theorem tokenMatchCond_false_op {ts : List Token} {c : Nat} {op : TokenOperation} {tok : Token}
    (hf : tokenMatchCond ts c op = false) (hlt : c < ts.length) (htok : ts[c]? = some tok) :
    tok.operation ≠ op := by
  intro heq
  have htrue : tokenMatchCond ts c op = true := by
    unfold tokenMatchCond
    rw [getToken_nat hlt, getD_of_getElem htok]
    simp [hlt, heq]
  rw [htrue] at hf
  cases hf

/-- Claim C1: all four binary operators are parsed strictly
left-associatively with equal precedence, evaluated left to right regardless
of conventional arithmetic precedence: any five-token sequence literal op
literal op literal parses to the left-nested Binary AST for every pair of
the four operators, and in particular Parse of the two spec examples
returns 16 and -8. -/
theorem claim_C1 :
    (Parse "1 + 3 * 4" = some (.ok 16) ∧ Parse "1 - 5 * 2" = some (.ok (-8))) ∧
    (∀ (o1 o2 : TokenOperation) (a b c : Int) (r1 r2 r3 r4 r5 : String),
      (o1 = .Addition ∨ o1 = .Subtraction ∨ o1 = .Multiplication ∨ o1 = .Division) →
      (o2 = .Addition ∨ o2 = .Subtraction ∨ o2 = .Multiplication ∨ o2 = .Division) →
      parseExpression 19
        [ { operation := .Literal, value := a, raw := r1 },
          { operation := o1, value := -1, raw := r2 },
          { operation := .Literal, value := b, raw := r3 },
          { operation := o2, value := -1, raw := r4 },
          { operation := .Literal, value := c, raw := r5 } ] 0
        = some (.ok (.Binary o2 (.Binary o1 (.Literal a) (.Literal b)) (.Literal c), 5))) := by
  refine ⟨⟨rfl, rfl⟩, ?_⟩
  intro o1 o2 a b c r1 r2 r3 r4 r5 h1 h2
  rcases h1 with rfl | rfl | rfl | rfl <;> rcases h2 with rfl | rfl | rfl | rfl <;> rfl

/-- Witness for claim C1 at a concrete operator pair and concrete literals. -/
theorem claim_C1_witness :
    parseExpression 19
      [ { operation := .Literal, value := 1, raw := "1" },
        { operation := .Addition, value := -1, raw := "+" },
        { operation := .Literal, value := 3, raw := "3" },
        { operation := .Multiplication, value := -1, raw := "*" },
        { operation := .Literal, value := 4, raw := "4" } ] 0
      = some (.ok (.Binary .Multiplication
          (.Binary .Addition (.Literal 1) (.Literal 3)) (.Literal 4), 5)) :=
  claim_C1.2 .Addition .Multiplication 1 3 4 "1" "+" "3" "*" "4" (Or.inl rfl)
    (Or.inr (Or.inr (Or.inl rfl)))

/-- Counterexample to claim C2 as stated: for a Division node the code
evaluates the right operand first; with a left operand whose evaluation
fails with UnknownOperator and a zero right operand, the whole node fails
with DivideByZero, so the left operand was not evaluated strictly before
the right one. -/
theorem claim_C2_counterexample :
    Evaluate (.Binary .None (.Literal 1) (.Literal 1)) = .error .UnknownOperator ∧
    Evaluate (.Binary .Division (.Binary .None (.Literal 1) (.Literal 1)) (.Literal 0))
      = .error .DivideByZero :=
  ⟨rfl, rfl⟩

/-- Claim C2, amended: for Addition, Subtraction and Multiplication the left
operand of a Binary is evaluated before the right one, its error surfacing
first and the right operand's error surfacing only once the left succeeded;
for Division the right operand is evaluated and zero-checked strictly before
the left operand is evaluated. -/
theorem claim_C2 :
    (∀ op l r e, (op = .Addition ∨ op = .Subtraction ∨ op = .Multiplication) →
      Evaluate l = .error e → Evaluate (.Binary op l r) = .error e) ∧
    (∀ op l r v e, (op = .Addition ∨ op = .Subtraction ∨ op = .Multiplication) →
      Evaluate l = .ok v → Evaluate r = .error e → Evaluate (.Binary op l r) = .error e) ∧
    (∀ l r e, Evaluate r = .error e → Evaluate (.Binary .Division l r) = .error e) ∧
    (∀ l r, Evaluate r = .ok 0 → Evaluate (.Binary .Division l r) = .error .DivideByZero) := by
  refine ⟨?_, ?_, ?_, ?_⟩
  · intro op l r e hop hl
    rcases hop with rfl | rfl | rfl <;> simp [Evaluate, hl]
  · intro op l r v e hop hl hr
    rcases hop with rfl | rfl | rfl <;> simp [Evaluate, hl, hr]
  · intro l r e hr
    simp [Evaluate, hr]
  · intro l r hr
    simp [Evaluate, hr]

/-- Witness for claim C2 at concrete nodes. -/
theorem claim_C2_witness :
    Evaluate (.Binary .Addition (.Binary .Division (.Literal 1) (.Literal 0)) (.Literal 7))
      = .error .DivideByZero :=
  claim_C2.1 .Addition (.Binary .Division (.Literal 1) (.Literal 0)) (.Literal 7)
    .DivideByZero (Or.inl rfl) rfl

/-- Counterexample to claim C3 as stated: the invalid-token pattern is a bare
one-character class with no quantifier, so the disallowed run test in the
example input is reported as four one-character substrings, not as the single
substring test. -/
theorem claim_C3_counterexample :
    Tokenise "1 + 3 + test" = .error (.InvalidToken ["t", "e", "s", "t"]) ∧
    (["t", "e", "s", "t"] : List String) ≠ ["test"] :=
  ⟨rfl, by decide⟩

/-- Claim C3, amended: if the input contains any character outside the
allowed set, tokenisation fails with InvalidToken carrying one
single-character substring per disallowed character, in input order;
maximal runs of disallowed characters are not grouped into one substring. -/
theorem claim_C3 :
    ∀ expr : String, (∃ ch ∈ expr.data, allowedChar ch = false) →
      Tokenise expr = .error (.InvalidToken
        ((expr.data.filter (fun ch => !(allowedChar ch))).map Char.toString)) ∧
      ∀ s ∈ (expr.data.filter (fun ch => !(allowedChar ch))).map Char.toString,
        s.length = 1 := by
  intro expr hbad
  obtain ⟨ch, hmem, hch⟩ := hbad
  have hne : ¬ (invalidSubstrings expr).isEmpty = true := by
    intro hemp
    rw [List.isEmpty_iff] at hemp
    unfold invalidSubstrings at hemp
    rw [List.map_eq_nil_iff, List.filter_eq_nil_iff] at hemp
    exact hemp ch hmem (by simp [hch])
  constructor
  · simp only [Tokenise]
    rw [if_neg hne]
    rfl
  · intro s hs
    rcases List.mem_map.mp hs with ⟨ch2, _, rfl⟩
    rfl

/-- Witness for claim C3 at a concrete invalid input. -/
theorem claim_C3_witness :
    Tokenise "a" = .error (.InvalidToken ["a"]) ∧ ("a" : String).length = 1 :=
  ⟨(claim_C3 "a" ⟨'a', by decide, by decide⟩).1,
   (claim_C3 "a" ⟨'a', by decide, by decide⟩).2 "a" (by decide)⟩

/-- Counterexample to claim C4 as stated: every character of the input
digit tab digit lies in the claimed allowed set, which includes tab, yet
tokenisation fails with InvalidToken, because the allowed class of the
source regex contains a space but no tab. -/
theorem claim_C4_counterexample :
    (∀ ch ∈ ("1\t1" : String).data, specAllowedChar ch = true) ∧
    Tokenise "1\t1" = .error (.InvalidToken ["\t"]) :=
  ⟨by decide, rfl⟩

/-- Claim C4, amended: for every input string all of whose characters are
digits, the four operators, parentheses or spaces (tab is not in the source
pattern's allowed class and is rejected), tokenisation never fails with
InvalidToken, and whitespace is not emitted as tokens: every character of
every produced token is a digit or an operator character, never a space or
a tab. -/
theorem claim_C4 :
    ∀ expr : String, (∀ ch ∈ expr.data, allowedChar ch = true) →
      (∀ l, Tokenise expr ≠ .error (.InvalidToken l)) ∧
      (∀ ts, Tokenise expr = .ok ts → ∀ t ∈ ts, ∀ ch ∈ t.raw.data,
        ch ≠ ' ' ∧ ch ≠ '\t') := by
  intro expr hall
  have hinv : (invalidSubstrings expr).isEmpty = true := by
    rw [List.isEmpty_iff]
    unfold invalidSubstrings
    rw [List.map_eq_nil_iff, List.filter_eq_nil_iff]
    intro ch hm
    simp [hall ch hm]
  constructor
  · intro l hcontra
    simp only [Tokenise] at hcontra
    rw [if_pos hinv] at hcontra
    by_cases hval : (scanTokens expr.data).isEmpty = true
    · rw [if_pos hval] at hcontra
      injection hcontra with h2
      cases h2
    · rw [if_neg hval] at hcontra
      cases classifyAll_error _ _ hcontra
  · intro ts hok t ht ch hch
    simp only [Tokenise] at hok
    rw [if_pos hinv] at hok
    by_cases hval : (scanTokens expr.data).isEmpty = true
    · rw [if_pos hval] at hok
      cases hok
    · rw [if_neg hval] at hok
      have hraw : t.raw ∈ scanTokens expr.data := classifyAll_raws _ _ hok t ht
      rcases scanAux_shape _ [] rfl t.raw hraw with ⟨_, hdig⟩ | ⟨ch0, hop, hdata⟩
      · have hd : ch.isDigit = true := by
          rw [List.all_eq_true] at hdig
          exact hdig ch hch
        constructor
        · intro heq
          rw [heq] at hd
          exact absurd hd (by decide)
        · intro heq
          rw [heq] at hd
          exact absurd hd (by decide)
      · rw [hdata] at hch
        rcases List.mem_singleton.mp hch with rfl
        simp only [isOpChar, Bool.or_eq_true, beq_iff_eq] at hop
        rcases hop with ((((h | h) | h) | h) | h) | h
        all_goals subst h
        all_goals exact ⟨by decide, by decide⟩

/-- Witness for claim C4 at a concrete all-allowed input. -/
theorem claim_C4_witness :
    Tokenise "1 + 2" ≠ .error (.InvalidToken ["+"]) ∧ ('1' ≠ ' ' ∧ '1' ≠ '\t') :=
  ⟨(claim_C4 "1 + 2" (by decide)).1 ["+"],
   (claim_C4 "1 + 2" (by decide)).2
     [ { operation := .Literal, value := 1, raw := "1" },
       { operation := .Addition, value := -1, raw := "+" },
       { operation := .Literal, value := 2, raw := "2" } ] rfl
     { operation := .Literal, value := 1, raw := "1" } (by decide) '1' (by decide)⟩

/-- Claim C5: for a Division node the right operand is evaluated and, if its
value is exactly zero, evaluation fails with DivideByZero regardless of the
left operand, before any division is attempted; a nonzero divisor gives C++
integer division, which truncates toward zero; and in particular Parse of
5 / 0 fails with DivideByZero and (0 - 7) / 2 evaluates to -3, toward zero
rather than toward minus infinity. -/
theorem claim_C5 :
    (Parse "5 / 0" = some (.error .DivideByZero)) ∧
    (Parse "(0 - 7) / 2" = some (.ok (-3))) ∧
    (∀ l r, Evaluate r = .ok 0 → Evaluate (.Binary .Division l r) = .error .DivideByZero) ∧
    (∀ l r a b, Evaluate r = .ok b → b ≠ 0 → Evaluate l = .ok a →
      Evaluate (.Binary .Division l r) = .ok (Int.tdiv a b)) := by
  refine ⟨rfl, rfl, ?_, ?_⟩
  · intro l r hr
    simp [Evaluate, hr]
  · intro l r a b hr hb hl
    simp [Evaluate, hr, hb, hl]

/-- Witness for claim C5 at concrete nodes. -/
theorem claim_C5_witness :
    Evaluate (.Binary .Division (.Literal 1) (.Literal 0)) = .error .DivideByZero ∧
    Evaluate (.Binary .Division (.Literal (-7)) (.Literal 2)) = .ok (Int.tdiv (-7) 2) :=
  ⟨claim_C5.2.2.1 (.Literal 1) (.Literal 0) rfl,
   claim_C5.2.2.2 (.Literal (-7)) (.Literal 2) (-7) 2 rfl (by decide) rfl⟩

/-- Counterexample to the parenthetical of claim C6: on the input with a
misplaced opening parenthesis the top-level parse stops at cursor 1 with
tokens left over and Parse fails with UnexpectedParentheses, but the first
leftover token is an opening parenthesis, not an extra unmatched closing
one that terminated parsing early. -/
theorem claim_C6_counterexample :
    Tokenise "5( + 6 *+ 4" = .ok c6Tokens ∧
    parseExpression (3 * c6Tokens.length + 4) c6Tokens 0 = some (.ok (.Literal 5, 1)) ∧
    (c6Tokens[1]?).map Token.operation = some .L_Brace ∧
    Parse "5( + 6 *+ 4" = some (.error .UnexpectedParentheses) :=
  ⟨rfl, rfl, rfl, rfl⟩

/-- Claim C6, amended: if the top-level recursive-descent parse returns
without having consumed every token, Parse fails with UnexpectedParentheses;
leftover tokens arise whenever the operator loop stopped at a token that is
not one of the four binary operators, such as a stray closing parenthesis, a
misplaced opening parenthesis, or an adjacent literal; in particular both
spec examples fail with UnexpectedParentheses. -/
theorem claim_C6 :
    (∀ expr ts ast c, Tokenise expr = .ok ts →
      parseExpression (3 * ts.length + 4) ts 0 = some (.ok (ast, c)) →
      c < ts.length →
      Parse expr = some (.error .UnexpectedParentheses) ∧
      ∀ tok, ts[c]? = some tok →
        tok.operation ≠ .Addition ∧ tok.operation ≠ .Subtraction ∧
        tok.operation ≠ .Multiplication ∧ tok.operation ≠ .Division) ∧
    Parse "5 + 6) *+ 4" = some (.error .UnexpectedParentheses) ∧
    Parse "5( + 6 *+ 4" = some (.error .UnexpectedParentheses) := by
  refine ⟨?_, rfl, rfl⟩
  intro expr ts ast c htok hparse hlt
  constructor
  · unfold Parse
    simp only [htok]
    simp only [hparse]
    rw [if_pos hlt]
  · intro tok htokc
    have hexit := parseBinary_exit
      (show parseBinary (3 * ts.length + 4) ts 0 = some (.ok (ast, c)) from hparse)
    exact ⟨tokenMatchCond_false_op hexit.1 hlt htokc,
      tokenMatchCond_false_op hexit.2.1 hlt htokc,
      tokenMatchCond_false_op hexit.2.2.1 hlt htokc,
      tokenMatchCond_false_op hexit.2.2.2 hlt htokc⟩

/-- Witness for claim C6 at the concrete misplaced-parenthesis input. -/
theorem claim_C6_witness :
    Parse "5( + 6 *+ 4" = some (.error .UnexpectedParentheses) ∧
    ({ operation := .L_Brace, value := -1, raw := "(" } : Token).operation ≠ .Addition :=
  ⟨(claim_C6.1 "5( + 6 *+ 4" c6Tokens (.Literal 5) 1 rfl rfl (by decide)).1,
   ((claim_C6.1 "5( + 6 *+ 4" c6Tokens (.Literal 5) 1 rfl rfl (by decide)).2
     { operation := .L_Brace, value := -1, raw := "(" } rfl).1⟩

/-- Claim C7: when parsePrimary finds neither a Literal nor an opening
parenthesis at the cursor, it fails with UnexpectedToken naming the raw text
of the token at the cursor clamped to the last valid index when the cursor
has run past the end, and in particular Parse of the trailing-operator
example fails with UnexpectedToken naming the final plus sign rather than
indexing out of bounds. -/
theorem claim_C7 :
    (Parse "5 + 6 + 4 +" = some (.error (.UnexpectedToken "+"))) ∧
    (∀ fuel ts c, ts ≠ [] →
      tokenMatchCond ts c .Literal = false →
      tokenMatchCond ts c .L_Brace = false →
      parsePrimary (fuel + 1) ts c
        = some (.error (.UnexpectedToken
            (ts.getD (min c (ts.length - 1)) defaultToken).raw))) := by
  refine ⟨rfl, ?_⟩
  intro fuel ts c hne hL hB
  have hlen1 : 1 ≤ ts.length := by
    cases ts with
    | nil => exact absurd rfl hne
    | cons a l => simp
  by_cases hclamp : (c : Int) > (ts.length : Int) - 1
  · have hmin : min c (ts.length - 1) = ts.length - 1 := by omega
    have htn : ((ts.length : Int) - 1).toNat = ts.length - 1 := by omega
    simp only [parsePrimary]
    rw [if_neg (by simp [hL]), if_neg (by simp [hB]), if_pos hclamp,
      getToken_ok (by omega) (by omega), hmin, htn]
  · have hmin : min c (ts.length - 1) = c := by omega
    have htn : ((c : Int)).toNat = c := by omega
    simp only [parsePrimary]
    rw [if_neg (by simp [hL]), if_neg (by simp [hB]), if_neg hclamp,
      getToken_ok (by omega) (by omega), hmin, htn]

/-- Witness for claim C7 at a concrete token list with the cursor run past
the end. -/
theorem claim_C7_witness :
    parsePrimary 1 [ { operation := .Addition, value := -1, raw := "+" } ] 3
      = some (.error (.UnexpectedToken "+")) :=
  claim_C7.2 0 [ { operation := .Addition, value := -1, raw := "+" } ] 3
    (by decide) (by decide) (by decide)

/-- Counterexample to claim C8 as stated: a ten-digit literal exceeding
INT_MAX makes the std::stoi call in the tokenizer fail with a
standard-library exception that is not among the error kinds enumerated by
the design. -/
theorem claim_C8_counterexample :
    Parse "9999999999" = some (.error .StoiFailure) ∧
    enumeratedError .StoiFailure = false :=
  ⟨rfl, rfl⟩

/-- Claim C8, amended: for every input string over digits, the four
operators, parentheses and whitespace (space or tab) whose extracted token
substrings all have digit value at most INT_MAX, Parse yields a result that
is an integer or one of the error kinds enumerated by the design; a longer
digit run instead surfaces the unclassified std::stoi failure.  An input
with a tab fails with InvalidToken, which is one of the enumerated kinds. -/
theorem claim_C8 :
    ∀ expr : String, (∀ ch ∈ expr.data, specAllowedChar ch = true) →
      (∀ t ∈ scanTokens expr.data, digitsVal t ≤ 2147483647) →
      (Parse expr).isSome = true ∧
      ∀ e, Parse expr = some (.error e) → enumeratedError e = true := by
  intro expr hall hsmall
  by_cases hinv : (invalidSubstrings expr).isEmpty = true
  case neg =>
    have htok : Tokenise expr = .error (.InvalidToken (invalidSubstrings expr)) := by
      simp only [Tokenise]
      rw [if_neg hinv]
    constructor
    · unfold Parse
      simp only [htok]
      rfl
    · intro e he
      unfold Parse at he
      simp only [htok] at he
      injection he with h2
      injection h2 with h3
      rw [← h3]
      rfl
  case pos =>
  by_cases hval : (scanTokens expr.data).isEmpty = true
  · have htok : Tokenise expr = .error .EmptyExpression := by
      simp only [Tokenise]
      rw [if_pos hinv, if_pos hval]
    constructor
    · unfold Parse
      simp only [htok]
      rfl
    · intro e he
      unfold Parse at he
      simp only [htok] at he
      injection he with h2
      injection h2 with h3
      rw [← h3]
      rfl
  · obtain ⟨ts, hts⟩ := classifyAll_ok_exists (scanTokens expr.data)
      (fun raw hr => classifyToken_shape_ok (scanAux_shape _ [] rfl raw hr) (hsmall raw hr))
    have htok : Tokenise expr = .ok ts := by
      simp only [Tokenise]
      rw [if_pos hinv, if_neg hval]
      exact hts
    have hne : ts ≠ [] := by
      have hlen := classifyAll_length _ _ hts
      intro hnil
      rw [hnil] at hlen
      rw [List.isEmpty_iff] at hval
      exact hval (List.length_eq_zero.mp hlen.symm)
    have hinvP := (parserFuelInv (3 * ts.length + 4)).2.2.2 ts 0 hne (by omega)
    cases hp : parseExpression (3 * ts.length + 4) ts 0 with
    | none => exact absurd hp (hinvP.1 (by omega))
    | some r0 =>
      cases r0 with
      | error e0 =>
        constructor
        · unfold Parse
          simp only [htok, hp]
          rfl
        · intro e he
          unfold Parse at he
          simp only [htok, hp] at he
          injection he with h2
          injection h2 with h3
          rw [← h3]
          rcases hinvP.2.1 e0 hp with rfl | ⟨s, rfl⟩ <;> rfl
      | ok p =>
        obtain ⟨ast, c⟩ := p
        by_cases hlt : c < ts.length
        · constructor
          · unfold Parse
            simp only [htok, hp]
            rw [if_pos hlt]
            rfl
          · intro e he
            unfold Parse at he
            simp only [htok, hp] at he
            rw [if_pos hlt] at he
            injection he with h2
            injection h2 with h3
            rw [← h3]
            rfl
        · constructor
          · unfold Parse
            simp only [htok, hp]
            rw [if_neg hlt]
            rfl
          · intro e he
            unfold Parse at he
            simp only [htok, hp] at he
            rw [if_neg hlt] at he
            injection he with h2
            rcases evaluate_error_cases ast e h2 with rfl | rfl <;> rfl

/-- Witness for claim C8 at a concrete input with a zero divisor. -/
theorem claim_C8_witness :
    (Parse "5 / 0").isSome = true ∧ enumeratedError .DivideByZero = true :=
  ⟨(claim_C8 "5 / 0" (by decide) (by decide)).1,
   (claim_C8 "5 / 0" (by decide) (by decide)).2 .DivideByZero rfl⟩

/-- Claim C9: getToken fails with TokenIndexOutOfRange exactly when its index
is outside the interval from 0 inclusive to the token count exclusive, and
for every input string this error is never surfaced by a Parse call: every
internal token access of the parser, including the look-backs at cursor
minus one and the clamped access in the error branch of parsePrimary, stays
within bounds. -/
theorem claim_C9 :
    (∀ (ts : List Token) (i : Int),
      getToken ts i = .error .TokenIndexOutOfRange ↔ (i < 0 ∨ (ts.length : Int) ≤ i)) ∧
    (∀ expr : String, Parse expr ≠ some (.error .TokenIndexOutOfRange)) := by
  constructor
  · intro ts i
    constructor
    · intro h
      by_cases hc : i < 0 ∨ (ts.length : Int) ≤ i
      · exact hc
      · unfold getToken at h
        rw [if_neg hc] at h
        cases h
    · intro hc
      unfold getToken
      rw [if_pos hc]
  · intro expr hcontra
    cases htk : Tokenise expr with
    | error e =>
      unfold Parse at hcontra
      simp only [htk] at hcontra
      injection hcontra with h2
      injection h2 with h3
      rcases Tokenise_error_cases htk with ⟨l, rfl⟩ | rfl | rfl <;> cases h3
    | ok ts =>
      have hne := Tokenise_ok_ne_nil htk
      have hinvP := (parserFuelInv (3 * ts.length + 4)).2.2.2 ts 0 hne (by omega)
      unfold Parse at hcontra
      simp only [htk] at hcontra
      cases hp : parseExpression (3 * ts.length + 4) ts 0 with
      | none =>
        simp only [hp] at hcontra
        exact Option.noConfusion hcontra
      | some r0 =>
        cases r0 with
        | error e0 =>
          simp only [hp] at hcontra
          injection hcontra with h2
          injection h2 with h3
          rcases hinvP.2.1 e0 hp with rfl | ⟨s, rfl⟩ <;> cases h3
        | ok p =>
          obtain ⟨ast, c⟩ := p
          simp only [hp] at hcontra
          by_cases hlt : c < ts.length
          · rw [if_pos hlt] at hcontra
            injection hcontra with h2
            injection h2 with h3
            cases h3
          · rw [if_neg hlt] at hcontra
            injection hcontra with h2
            rcases evaluate_error_cases ast _ h2 with h3 | h3 <;> cases h3

/-- Witness for claim C9: a concrete out-of-range access does fail with
TokenIndexOutOfRange. -/
theorem claim_C9_witness :
    getToken [] 5 = .error .TokenIndexOutOfRange :=
  (claim_C9.1 [] 5).mpr (Or.inr (by decide))

/-- Claim C10: Parse terminates on every input string: with the fuel linear
in the token count that Parse supplies, the embedded recursion always
returns a result (the none of the Option layer, which stands for exhausted
recursion, never occurs), fuel three times the remaining tokens plus four
always suffices for the top-level nonterminal, and the parser cursor never
moves backwards and stays within the token count. -/
theorem claim_C10 :
    (∀ expr : String, (Parse expr).isSome = true) ∧
    (∀ ts c, ts ≠ [] → c ≤ ts.length →
      parseBinary (3 * (ts.length - c) + 4) ts c ≠ none) ∧
    (∀ fuel ts c ast c2, ts ≠ [] → c ≤ ts.length →
      parseBinary fuel ts c = some (.ok (ast, c2)) → c ≤ c2 ∧ c2 ≤ ts.length) := by
  refine ⟨?_, ?_, ?_⟩
  · intro expr
    cases htk : Tokenise expr with
    | error e =>
      unfold Parse
      simp only [htk]
      rfl
    | ok ts =>
      have hne := Tokenise_ok_ne_nil htk
      have hinvP := (parserFuelInv (3 * ts.length + 4)).2.2.2 ts 0 hne (by omega)
      unfold Parse
      simp only [htk]
      cases hp : parseExpression (3 * ts.length + 4) ts 0 with
      | none => exact absurd hp (hinvP.1 (by omega))
      | some r0 =>
        cases r0 with
        | error e0 => simp
        | ok p =>
          obtain ⟨ast, c⟩ := p
          by_cases hlt : c < ts.length
          · simp [hlt]
          · simp [hlt]
  · intro ts c hne hc
    exact ((parserFuelInv (3 * (ts.length - c) + 4)).2.2.2 ts c hne hc).1 (by omega)
  · intro fuel ts c ast c2 hne hc h
    exact ((parserFuelInv fuel).2.2.2 ts c hne hc).2.2 ast c2 h

/-- Witness for claim C10 at a concrete input and a concrete token list. -/
theorem claim_C10_witness :
    (Parse "1 + 2").isSome = true ∧
    parseBinary 7 [ { operation := .Literal, value := 5, raw := "5" } ] 0 ≠ none ∧
    (0 ≤ 1 ∧ 1 ≤ ([ { operation := .Literal, value := 5, raw := "5" } ] : List Token).length) :=
  ⟨claim_C10.1 "1 + 2",
   claim_C10.2.1 [ { operation := .Literal, value := 5, raw := "5" } ] 0 (by decide) (by decide),
   claim_C10.2.2 7 [ { operation := .Literal, value := 5, raw := "5" } ] 0 (.Literal 5) 1
     (by decide) (by decide) rfl⟩

end RD
